import Mathlib

/-!
Shallow embedding of the affordability engine of
`affordable_housing_mapper/utils.py` (pandas pipeline), together with
theorems settling the specification claims about it.

Pandas float cells are modelled by `PVal`: a rational number, positive or
negative infinity, or NaN (the representation of a missing value).  The
arithmetic on `PVal` follows IEEE-754 semantics as implemented by numpy
(`x / 0 = ±inf` for `x ≠ 0`, `0 / 0 = NaN`, NaN propagates through every
operation and compares false under `<` and `≤`).
-/

namespace AffordableHousing

/-- One float cell of a pandas Series: NaN (missing), ±infinity, or a finite
value modelled as a rational. -/
inductive PVal where
  | nan : PVal
  | inf : PVal
  | neginf : PVal
  | num : ℚ → PVal
deriving DecidableEq, Repr

/-- `pd.isna` on a float cell. -/
def PVal.isNa : PVal → Bool
  | .nan => true
  | _ => false

/-- IEEE-754 multiplication as performed by numpy on float cells. -/
def PVal.mul : PVal → PVal → PVal
  | .nan, _ => .nan
  | _, .nan => .nan
  | .num a, .num b => .num (a * b)
  | .inf, .inf => .inf
  | .inf, .neginf => .neginf
  | .neginf, .inf => .neginf
  | .neginf, .neginf => .inf
  | .inf, .num b => if b = 0 then .nan else if 0 < b then .inf else .neginf
  | .num a, .inf => if a = 0 then .nan else if 0 < a then .inf else .neginf
  | .neginf, .num b => if b = 0 then .nan else if 0 < b then .neginf else .inf
  | .num a, .neginf => if a = 0 then .nan else if 0 < a then .neginf else .inf

/-- IEEE-754 division as performed by numpy on float cells: a finite nonzero
value divided by zero is a signed infinity, `0 / 0` is NaN. -/
def PVal.div : PVal → PVal → PVal
  | .nan, _ => .nan
  | _, .nan => .nan
  | .num a, .num b =>
    if b = 0 then (if a = 0 then .nan else if 0 < a then .inf else .neginf)
    else .num (a / b)
  | .num _, .inf => .num 0
  | .num _, .neginf => .num 0
  | .inf, .num b => if 0 ≤ b then .inf else .neginf
  | .neginf, .num b => if 0 ≤ b then .neginf else .inf
  | .inf, .inf => .nan
  | .inf, .neginf => .nan
  | .neginf, .inf => .nan
  | .neginf, .neginf => .nan

/-- IEEE-754 strict comparison `a < b`: false whenever NaN is involved. -/
def PVal.lt : PVal → PVal → Bool
  | .nan, _ => false
  | _, .nan => false
  | .num a, .num b => decide (a < b)
  | .neginf, .neginf => false
  | .neginf, _ => true
  | _, .neginf => false
  | .inf, _ => false
  | .num _, .inf => true

/-- IEEE-754 comparison `a ≤ b`: false whenever NaN is involved. -/
def PVal.le : PVal → PVal → Bool
  | .nan, _ => false
  | _, .nan => false
  | .num a, .num b => decide (a ≤ b)
  | .neginf, _ => true
  | _, .neginf => false
  | _, .inf => true
  | .inf, _ => false

/-- The larger of two non-NaN cells (used to model `Series.max`, which skips
NaN values). -/
def PVal.maxv (a b : PVal) : PVal := if PVal.lt a b then b else a

/-- Python's whitespace test for `str.strip`, restricted to the ASCII
whitespace characters. -/
def isWS (c : Char) : Bool :=
  c = ' ' || c = '\t' || c = '\n' || c = '\r' || c = '\x0b' || c = '\x0c'

/-- Python's `str.strip()`: remove leading and trailing whitespace. -/
def pyStrip (s : String) : String :=
  String.mk (((s.data.dropWhile isWS).reverse.dropWhile isWS).reverse)

/-- ASCII lowercasing of one character (Python's `str.lower`, restricted to
ASCII letters, which is all the engine's column names use). -/
def lowerChar (c : Char) : Char :=
  if 'A' ≤ c ∧ c ≤ 'Z' then Char.ofNat (c.toNat + 32) else c

/-- Python's `str.lower()`. -/
def pyLower (s : String) : String := String.mk (s.data.map lowerChar)

/-- Whether the first list is an initial segment of the second. -/
def prefixOfL : List Char → List Char → Bool
  | [], _ => true
  | _ :: _, [] => false
  | c :: cs, d :: ds => c = d && prefixOfL cs ds

/-- Whether `pat` occurs as a contiguous sublist of `s`. -/
def occursIn (pat : List Char) : List Char → Bool
  | [] => pat.isEmpty
  | c :: rest => prefixOfL pat (c :: rest) || occursIn pat rest

/-- Python's substring test `pat in s`. -/
def strContains (s pat : String) : Bool := occursIn pat.data s.data

/-- Python's `s.startswith(pat)`. -/
def pyStartsWith (s pat : String) : Bool := prefixOfL pat.data s.data

/-- Python's `s.split(sep)` for a single-character separator (no collapsing
of adjacent separators; the empty string yields `[""]`). -/
def splitOnChar (sep : Char) : List Char → List (List Char)
  | [] => [[]]
  | c :: rest =>
    let r := splitOnChar sep rest
    if c = sep then [] :: r
    else (c :: r.headD []) :: r.tail

/-- `"\n".join(parts)` on character lists. -/
def joinNL : List (List Char) → List Char
  | [] => []
  | [p] => p
  | p :: q :: rest => p ++ '\n' :: joinNL (q :: rest)

/-- Strict codepoint-lexicographic comparison of character lists (Python's
`<` on strings). -/
def lexLt : List Char → List Char → Bool
  | [], [] => false
  | [], _ :: _ => true
  | _ :: _, [] => false
  | c :: cs, d :: ds => c < d || (c = d && lexLt cs ds)

/-- Python's `<` on strings. -/
def strLt (a b : String) : Bool := lexLt a.data b.data

/-- Python's `≤` on strings (the total order used when sorting keys). -/
def strLe (a b : String) : Bool := !strLt b a

/-- The local function `classify` of `compute_affordability`
(utils.py lines 219-226): Unknown on NaN, then the fixed thresholds
`idx < 30` / `idx <= 50`. -/
def classify (idx : PVal) : String :=
  if idx.isNa then "Unknown"
  else if idx.lt (.num 30) then "Affordable"
  else if idx.le (.num 50) then "Moderate"
  else "Expensive"

/-- `"month" in rent_col.lower()` (utils.py line 190). -/
def is_monthly (rent_col : String) : Bool := strContains (pyLower rent_col) "month"

/-- The per-row affordability-index computation of `compute_affordability`
(utils.py lines 189-211): annualize the cost cell when the resolved cost
column is monthly-labeled, divide by the income cell, multiply by 100. -/
def rowIndex (rent_col : String) (r i : PVal) : PVal :=
  ((if is_monthly rent_col then r.mul (.num 12) else r).div i).mul (.num 100)

/-- C4: `affordability_class` is a deterministic pure function of
`affordability_index` under the fixed thresholds: "Unknown" if the index is
missing, "Affordable" if index < 30, "Moderate" if 30 ≤ index ≤ 50,
"Expensive" if index > 50; in particular 29.9 → Affordable, 30.0 → Moderate,
50.0 → Moderate, 50.1 → Expensive, missing → Unknown (an infinite index,
being > 50, is Expensive, and a negatively infinite one Affordable). -/
theorem C4_classify_thresholds :
    (classify .nan = "Unknown") ∧
    (∀ q : ℚ, classify (.num q) =
      if q < 30 then "Affordable" else if q ≤ 50 then "Moderate" else "Expensive") ∧
    classify .inf = "Expensive" ∧
    classify .neginf = "Affordable" ∧
    classify (.num (299/10)) = "Affordable" ∧
    classify (.num 30) = "Moderate" ∧
    classify (.num 50) = "Moderate" ∧
    classify (.num (501/10)) = "Expensive" := by
  refine ⟨rfl, ?_, rfl, rfl, ?_, ?_, ?_, ?_⟩
  case _ =>
    intro q
    simp only [classify, PVal.isNa, PVal.lt, PVal.le]
    by_cases h30 : q < 30 <;> by_cases h50 : q ≤ 50 <;>
      simp [h30, h50]
  all_goals norm_num [classify, PVal.isNa, PVal.lt, PVal.le]

/-- Python truthiness of a float (`if series.max():`): zero is falsy; NaN and
the infinities are truthy. -/
def truthy : PVal → Bool
  | .num q => decide (q ≠ 0)
  | _ => true

/-- `Series.max()` of a column of float cells: pandas skips NaN values and
returns NaN when no value remains. -/
def series_max (cells : List PVal) : PVal :=
  match cells.filter (fun c => !c.isNa) with
  | [] => .nan
  | x :: xs => xs.foldl PVal.maxv x

/-- The synthetic annual-income column built by `compute_affordability` when
`income_col is None` (utils.py lines 196-206): a monthly-rent estimate is the
cost cell divided by 300 when the column is not monthly-labeled and the
column maximum is truthy and exceeds 1e6, the cell itself when the column is
monthly-labeled, and the cell divided by 12 otherwise; annual income is
(estimate × 12) × 3.5. -/
def estimated_income (rent_col : String) (rent : List PVal) : List PVal :=
  let m := series_max rent
  let monthly_rent_est :=
    if truthy m && PVal.lt (.num 1000000) m && !is_monthly rent_col then
      rent.map (fun v => v.div (.num 300))
    else if is_monthly rent_col then rent
    else rent.map (fun v => v.div (.num 12))
  monthly_rent_est.map (fun v => (v.mul (.num 12)).mul (.num (7/2)))

/-- The column-level core of `compute_affordability` (utils.py lines 188-228),
for a table whose cost column has already been resolved (the rent-resolution
of lines 178-186 replaces a missing `rent_col` by a price column or an
all-NaN `estimated_rent` column before this point, and `pd.to_numeric` has
already turned every cell into a float value).  Arguments: the resolved cost
column's name and cells, the income column's cells when an income column was
resolved (`None` triggers the synthetic income of `estimated_income`), and
the cells of a literal `Affordability_Index` column when the table carries
one (used to fill rows whose computed index is missing).  Returns the
`affordability_index` and `affordability_class` columns. -/
def compute_affordability (rent_col : String) (rent : List PVal)
    (income : Option (List PVal)) (pre : Option (List PVal)) :
    List PVal × List String :=
  let rent_annual :=
    if is_monthly rent_col then rent.map (fun v => v.mul (.num 12)) else rent
  let income_series :=
    match income with
    | some cells => cells
    | none => estimated_income rent_col rent
  let idx0 := List.zipWith (fun r i => (r.div i).mul (.num 100)) rent_annual income_series
  let idx :=
    match pre with
    | some fallback =>
      if idx0.any (fun v => v.isNa) then
        List.zipWith (fun v f => if v.isNa then f else v) idx0 fallback
      else idx0
    | none => idx0
  (idx, idx.map classify)

/-- One row of the tables seen by the aggregator: the resolved area cell
(`none` models a missing area) and the `affordability_index` cell. -/
structure SRow where
  area : Option String
  idx : PVal
deriving DecidableEq, Repr

/-- Deduplication of the list of area labels (the distinct group keys; which
occurrence survives is irrelevant because the keys are sorted afterwards). -/
def dedupStr : List String → List String
  | [] => []
  | x :: xs => if xs.any (fun s => s = x) then dedupStr xs else x :: dedupStr xs

/-- Insertion step of an ascending sort on strings (the order pandas uses for
group keys). -/
def insertStr (x : String) : List String → List String
  | [] => [x]
  | y :: ys => if strLe x y then x :: y :: ys else y :: insertStr x ys

/-- Ascending sort on strings, modelling the sorted group keys of
`DataFrame.groupby`. -/
def sortStr (l : List String) : List String := l.foldr insertStr []

/-- `estimate_struggling` (utils.py lines 309-326).  The overall total counts
rows with a non-missing index, the overall count the rows whose index is
strictly above the threshold (NaN compares false, +inf true); the per-area
table is grouped on the area column (rows with a missing area are dropped by
`groupby`), its `total` is the size of the whole group because the boolean
`_struggling` column is never missing, and each fraction falls back to 0 on
a zero denominator.  Returns (overall_count, overall_pct, per_area rows of
(area, struggling_count, total, struggling_pct)). -/
def estimate_struggling (rows : List SRow) (threshold : ℚ) :
    ℕ × ℚ × List (String × ℕ × ℕ × ℚ) :=
  let idxs := rows.map (fun r => r.idx)
  let overall_total := (idxs.filter (fun v => !v.isNa)).length
  let overall_count := (idxs.filter (fun v => PVal.lt (.num threshold) v)).length
  let overall_pct : ℚ := if overall_total = 0 then 0 else (overall_count : ℚ) / overall_total
  let areas := sortStr (dedupStr (rows.filterMap (fun r => r.area)))
  let per_area := areas.map (fun a =>
    let grp := rows.filter (fun r => r.area = some a)
    let strugg := (grp.filter (fun r => PVal.lt (.num threshold) r.idx)).length
    let tot := grp.length
    (a, strugg, tot, if tot = 0 then (0 : ℚ) else (strugg : ℚ) / tot))
  (overall_count, overall_pct, per_area)

/-- Round half to even of a rational, the rounding used when formatting a
value with one decimal place. -/
def rne (x : ℚ) : ℤ :=
  let f := ⌊x⌋
  let frac := x - f
  if frac < 1/2 then f
  else if 1/2 < frac then f + 1
  else if f % 2 = 0 then f else f + 1

/-- Python's `f"{idx:.1f}"` on a float cell (decimal round-half-to-even; the
artifacts of binary double representation on exact halfway decimals are not
modelled). -/
def fmt1 : PVal → String
  | .nan => "nan"
  | .inf => "inf"
  | .neginf => "-inf"
  | .num q =>
    let n := rne (q * 10)
    let sign := if q < 0 then "-" else ""
    let a := n.natAbs
    sign ++ toString (a / 10) ++ "." ++ toString (a % 10)

/-- The recommendation string built by `recommend_actions`
(utils.py lines 261-263). -/
def format_rec (area : String) (idx : PVal) : String :=
  area ++ " shows high housing stress (affordability index=" ++ fmt1 idx ++
    "). Prioritize affordable units near major transit and schools."

/-- `df[[area_col, "affordability_index"]].dropna()` (utils.py line 253):
keep the rows whose area and index are both present. -/
def valid_rows (rows : List SRow) : List SRow :=
  rows.filter (fun r => r.area.isSome && !r.idx.isNa)

/-- Insertion step of the descending sort on the index column.  pandas'
`sort_values(ascending=False)` leaves the relative order of tied rows
unspecified (quicksort); this model commits to one concrete order. -/
def insertDesc (r : SRow) : List SRow → List SRow
  | [] => [r]
  | y :: ys => if PVal.le y.idx r.idx then r :: y :: ys else y :: insertDesc r ys

/-- `s.sort_values("affordability_index", ascending=False)`
(utils.py line 256). -/
def sort_desc (rows : List SRow) : List SRow := rows.foldr insertDesc []

/-- `recommend_actions` (utils.py lines 252-264): drop rows with a missing
area or index; on an empty remainder return the fixed insufficient-data
message; otherwise sort by index descending, take the first `top_k` rows and
format each one. -/
def recommend_actions (rows : List SRow) (top_k : ℕ) : List String :=
  let s := valid_rows rows
  if s.isEmpty then ["Insufficient data to generate recommendations."]
  else ((sort_desc s).take top_k).map (fun r => format_rec (r.area.getD "") r.idx)

/-- Insertion step of an ascending sort on rationals. -/
def insertQ (x : ℚ) : List ℚ → List ℚ
  | [] => [x]
  | y :: ys => if x ≤ y then x :: y :: ys else y :: insertQ x ys

/-- Ascending sort on rationals. -/
def sortQ (l : List ℚ) : List ℚ := l.foldr insertQ []

/-- `Series.median()` over the present values of a column: none on an empty
list (pandas returns NaN there), the middle element of the sorted list for an
odd count, the mean of the two middle elements for an even count. -/
def median (xs : List ℚ) : Option ℚ :=
  match sortQ xs with
  | [] => none
  | y :: ys =>
    let s := y :: ys
    let n := s.length
    if n % 2 = 1 then some (s.getD (n / 2) 0)
    else some ((s.getD (n / 2 - 1) 0 + s.getD (n / 2) 0) / 2)

/-- The number of occurrences of `v` in `xs`. -/
def countOcc (xs : List String) (v : String) : ℕ := (xs.filter (fun w => w = v)).length

/-- `Series.mode().iloc[0]` over the present values of a non-numeric column:
pandas returns the modes in sorted order, so `.iloc[0]` is the
lexicographically smallest most frequent value; on an empty list `.iloc[0]`
raises, modelled by `none`. -/
def modeStr : List String → Option String
  | [] => none
  | x :: xs =>
    some ((x :: xs).foldl (fun best v =>
      let cb := countOcc (x :: xs) best
      let cv := countOcc (x :: xs) v
      if cb < cv ∨ (cv = cb ∧ strLt v best = true) then v else best) x)

/-- `str.replace(",", "")` (utils.py line 165): remove every comma. -/
def stripCommas (s : String) : String := String.mk (s.data.filter (fun c => c ≠ ','))

/-- The value of an unsigned decimal digit string. -/
def digitsToNat (cs : List Char) : ℕ := cs.foldl (fun n c => n * 10 + (c.toNat - 48)) 0

/-- Split a character list at the first `'.'`, returning the part before it
and, when a dot occurs, the part after it. -/
def splitAtDot : List Char → List Char × Option (List Char)
  | [] => ([], none)
  | c :: rest =>
    if c = '.' then ([], some rest)
    else
      let p := splitAtDot rest
      (c :: p.1, p.2)

/-- `pd.to_numeric(·, errors="coerce")` on one text cell: an optional sign
followed by decimal digits with at most one decimal point parses to its
value, anything else (including the string image of a missing value) becomes
missing.  Scientific notation is not modelled. -/
def parseNumeric (s0 : String) : Option ℚ :=
  let t := pyStrip s0
  let p : ℤ × List Char :=
    match t.data with
    | '-' :: rest => (-1, rest)
    | '+' :: rest => (1, rest)
    | cs => (1, cs)
  let q := splitAtDot p.2
  let intPart := q.1
  let fracPart := (q.2).getD []
  if intPart.all Char.isDigit ∧ fracPart.all Char.isDigit ∧ intPart ++ fracPart ≠ [] then
    some (mkRat (p.1 * ((digitsToNat intPart : ℤ) * 10 ^ fracPart.length + (digitsToNat fracPart : ℤ)))
      (10 ^ fracPart.length))
  else none

/-- One column of a DataFrame: a numeric-typed column of float cells or an
object-typed column of text cells; `none` models a missing value. -/
inductive Column where
  | numCol : List (Option ℚ) → Column
  | strCol : List (Option String) → Column
deriving DecidableEq, Repr

/-- A DataFrame: its row count and its named columns in order. -/
structure Table where
  nrows : ℕ
  cols : List (String × Column)
deriving DecidableEq, Repr

/-- Whether a column contains a missing value. -/
def Column.hasMissing : Column → Bool
  | .numCol cells => cells.any (fun c => c.isNone)
  | .strCol cells => cells.any (fun c => c.isNone)

/-- Whether a column contains at least one present value. -/
def Column.hasPresent : Column → Bool
  | .numCol cells => cells.any (fun c => c.isSome)
  | .strCol cells => cells.any (fun c => c.isSome)

/-- Whether no column of the table contains a missing value. -/
def Table.noMissingB (t : Table) : Bool :=
  t.cols.all (fun p => !p.2.hasMissing)

/-- The missing-value handling of `clean_data` on a numeric column
(utils.py lines 154-156): when a value is missing, fill every missing cell
with the column's median over present values; the median of an all-missing
column is itself missing, so `fillna` then leaves the column unchanged. -/
def fillNumCol (cells : List (Option ℚ)) : List (Option ℚ) :=
  if cells.any (fun c => c.isNone) then
    match median (cells.filterMap id) with
    | some m => cells.map (fun c => some (c.getD m))
    | none => cells
  else cells

/-- The missing-value handling of `clean_data` on a non-numeric column
(utils.py lines 157-159): fill missing cells with the mode; on an all-missing
column `mode().iloc[0]` raises. -/
def fillStrCol (cells : List (Option String)) : Except String (List (Option String)) :=
  if cells.any (fun c => c.isNone) then
    match modeStr (cells.filterMap id) with
    | some m => .ok (cells.map (fun c => some (c.getD m)))
    | none => .error "single positional indexer is out-of-bounds"
  else .ok cells

/-- The cell-wise coercion `pd.to_numeric(df[col].astype(str).str.replace(",", ""), errors="coerce")`
of utils.py line 165: strip commas and parse each cell; a missing cell's
string image never parses. -/
def parsedCells (cells : List (Option String)) : List (Option ℚ) :=
  cells.map (fun c => c.bind (fun s => parseNumeric (stripCommas s)))

/-- The numeric-coercion pass of `clean_data` on an object column
(utils.py lines 162-169), where `n` is the table's row count: strip commas
and parse every cell; when at least one cell parses and the parsed count is
at least `int(0.6 * n)` — which equals `⌊3n/5⌋`, since the double product
`0.6 * n` stays within half an ulp of `3n/5` for any realistic `n` — replace
the column with the parsed values, missing ones filled with their median;
otherwise keep the column as text. -/
def coerceColumn (n : ℕ) (cells : List (Option String)) : Column :=
  let coerced := parsedCells cells
  let k := (coerced.filterMap id).length
  if 0 < k ∧ 3 * n / 5 ≤ k then
    match median (coerced.filterMap id) with
    | some m => .numCol (coerced.map (fun c => some (c.getD m)))
    | none => .numCol coerced
  else .strCol cells

/-- `clean_data` on one column: median/mode imputation followed, on object
columns, by the numeric-coercion attempt. -/
def cleanColumn (n : ℕ) : Column → Except String Column
  | .numCol cells => .ok (.numCol (fillNumCol cells))
  | .strCol cells =>
    match fillStrCol cells with
    | .ok filled => .ok (coerceColumn n filled)
    | .error e => .error e

/-- `clean_data` over the column list, also stripping each column name. -/
def cleanCols (n : ℕ) : List (String × Column) → Except String (List (String × Column))
  | [] => .ok []
  | p :: rest =>
    match cleanColumn n p.2 with
    | .error e => .error e
    | .ok c =>
      match cleanCols n rest with
      | .error e => .error e
      | .ok rest2 => .ok ((pyStrip p.1, c) :: rest2)

/-- `clean_data` (utils.py lines 145-171). -/
def clean_data (t : Table) : Except String Table :=
  match cleanCols t.nrows t.cols with
  | .ok cs => .ok ⟨t.nrows, cs⟩
  | .error e => .error e

/-- Python's `s.split(sep)` on strings, via `splitOnChar`. -/
def pySplit (sep : Char) (s : String) : List String :=
  (splitOnChar sep s.data).map String.mk
/-- The per-cell body of `_derive_city_from_address_series`
(utils.py lines 58-73): `none` models a non-string (missing) address cell.
Non-string and blank cells, and a blank city token, parse to `None` and are
then filled with "Unknown"; otherwise the text before the first comma of the
last non-empty line, or that whole line when it has no comma.
(`str.splitlines` is modelled as splitting on a newline character.) -/
def derive_city_cell (addr : Option String) : String :=
  match addr with
  | none => "Unknown"
  | some a =>
    if pyStrip a = "" then "Unknown"
    else
      let parts := ((pySplit '\n' a).filter (fun p => pyStrip p ≠ "")).map pyStrip
      let text := String.mk (joinNL (parts.map String.data))
      let last_line := (pySplit '\n' text).getLastD ""
      if strContains last_line "," then
        let city := pyStrip ((pySplit ',' last_line).headD "")
        if city = "" then "Unknown" else city
      else
        if pyStrip last_line = "" then "Unknown" else pyStrip last_line

/-- One step of building the Python dict `{c.lower(): c for c in df.columns}`:
an existing key keeps its position but takes the new value, a new key goes to
the end. -/
def insertOrUpdate (m : List (String × String)) (k v : String) : List (String × String) :=
  if m.any (fun p => p.1 = k) then m.map (fun p => if p.1 = k then (k, v) else p)
  else m ++ [(k, v)]

/-- The dict `cols = {c.lower(): c for c in df.columns}` of `infer_columns`
(utils.py line 82), as an association list in dict iteration order: keys in
first-occurrence order, each mapped to the last original spelling. -/
def colsDict (names : List String) : List (String × String) :=
  names.foldl (fun m c => insertOrUpdate m (pyLower c) c) []

/-- The area-key priority list of `infer_columns` (utils.py lines 93-102). -/
def areaKeys : List String :=
  ["neighborhood", "ward", "zone", "district", "city", "location", "locality", "area"]

/-- Whether lowercased column name `k` matches area key `key`: substring
match, skipping for the key "area" the names that start with "avg. area"
(utils.py lines 103-107). -/
def areaPred (key k : String) : Bool :=
  strContains k key && !(decide (key = "area") && pyStartsWith k "avg. area")

/-- The inner loop of the area scan: the first dict entry whose key matches,
yielding its original spelling. -/
def scanKey (m : List (String × String)) (key : String) : Option String :=
  (m.find? (fun p => areaPred key p.1)).map (fun p => p.2)

/-- The area scan of `infer_columns` (utils.py lines 92-111): first key with
a matching dict entry wins. -/
def areaScan (m : List (String × String)) : Option String :=
  areaKeys.foldl (fun acc key => acc <|> scanKey m key) none

/-- Python's `candidate or first` on an optional string: an absent or falsy
(empty) candidate falls back to `first` (utils.py line 142). -/
def pyOr (o : Option String) (d : String) : String :=
  match o with
  | some c => if c = "" then d else c
  | none => d

/-- The area-column resolution of `infer_columns` (utils.py lines 82-142):
a column lowercased-named "address" routes to the derived "Derived City"
column; otherwise the dict scan, falling back to the table's first column. -/
def infer_area (names : List String) : String :=
  let cols := colsDict names
  if cols.any (fun p => p.1 = "address") then "Derived City"
  else pyOr (areaScan cols) (names.headD "")

/-- The distinct lowercased column names in first-occurrence order (the key
order of `colsDict`). -/
def lcNamesInOrder (names : List String) : List String :=
  names.foldl (fun acc nm =>
    if acc.any (fun s => s = pyLower nm) then acc else acc ++ [pyLower nm]) []

/-- The last column spelling whose lowercasing is `k` (the value `colsDict`
records for key `k`). -/
def lastSpellingD (names : List String) (k : String) : String :=
  (names.reverse.find? (fun nm => pyLower nm = k)).getD ""

/-- The amended per-key scan: the first distinct lowercased name (in
first-occurrence order) matching the key, resolved to its last original
spelling. -/
def specScanKey (names : List String) (key : String) : Option String :=
  ((lcNamesInOrder names).find? (fun k => areaPred key k)).map (lastSpellingD names)

/-- The amended area scan, stated directly on the column-name list. -/
def specAmendedScan (names : List String) : Option String :=
  areaKeys.foldl (fun acc key => acc <|> specScanKey names key) none

/-- The area choice the original claim C5 describes: the first column in
table order whose lowercased name matches the key, keys in priority order. -/
def specClaimScan (names : List String) : Option String :=
  areaKeys.foldl (fun acc key => acc <|> names.find? (fun c => areaPred key (pyLower c))) none

lemma PVal.nan_mul (v : PVal) : PVal.mul .nan v = .nan := by cases v <;> rfl

lemma PVal.mul_nan (v : PVal) : PVal.mul v .nan = .nan := by cases v <;> rfl

lemma PVal.nan_div (v : PVal) : PVal.div .nan v = .nan := by cases v <;> rfl

lemma PVal.div_nan (v : PVal) : PVal.div v .nan = .nan := by cases v <;> rfl

/-- The value of `(annualized_cost / annual_income) * 100` on finite operands,
expressed on the rationals: NaN on `0 / 0`, a signed infinity on division of
a nonzero cost by a zero income, and the finite ratio otherwise. -/
def index_of_annualQ (a i : ℚ) : PVal :=
  if i = 0 then (if a = 0 then .nan else if 0 < a then .inf else .neginf)
  else .num (a / i * 100)

lemma rowIndex_num (name : String) (a b : ℚ) :
    rowIndex name (.num a) (.num b) =
      index_of_annualQ (if is_monthly name then a * 12 else a) b := by
  have hmul : (if is_monthly name then PVal.mul (.num a) (.num 12) else PVal.num a)
      = PVal.num (if is_monthly name then a * 12 else a) := by
    cases is_monthly name <;> rfl
  unfold rowIndex
  rw [hmul]
  generalize (if is_monthly name then a * 12 else a) = A
  unfold index_of_annualQ
  by_cases hb : b = 0
  · subst hb
    have hdiv : PVal.div (.num A) (.num 0)
        = (if A = 0 then PVal.nan else if 0 < A then PVal.inf else PVal.neginf) := by
      simp [PVal.div]
    rw [hdiv, if_pos rfl]
    split_ifs with h1 h2 <;> norm_num [PVal.mul]
  · rw [if_neg hb]
    have hdiv : PVal.div (.num A) (.num b) = PVal.num (A / b) := by
      simp [PVal.div, hb]
    rw [hdiv]
    rfl

/-- C1 (counterexample): a zero income with a nonzero annual cost does not
give a missing index and an "Unknown" class — `compute_affordability`
produces an infinite index classified "Expensive", and that infinite value
reaches downstream aggregation: `estimate_struggling` counts the row both in
its overall numerator and in its non-missing denominator. -/
theorem C1_counterexample :
    compute_affordability "Annual_Rent" [.num 1000] (some [.num 0]) none
      = ([.inf], ["Expensive"]) ∧
    ("Expensive" : String) ≠ "Unknown" ∧
    estimate_struggling [⟨some "A", .inf⟩] 50 = (1, 1, [("A", 1, 1, 1)]) := by
  refine ⟨rfl, by decide, ?_⟩
  norm_num [estimate_struggling, dedupStr, sortStr, insertStr, PVal.lt, PVal.isNa]

/-- C1 (amended): in the per-row index computation (before the optional
`Affordability_Index` fallback fill), the index is missing iff the cost cell
or the income cell is missing, or both the income and the annualized cost
are zero; a zero income with a positive annualized cost instead yields an
infinite index, classified "Expensive" rather than "Unknown", which does
propagate into downstream aggregation. -/
theorem C1_amended (name : String) (a b : ℚ) (v : PVal) :
    rowIndex name .nan v = .nan ∧
    rowIndex name v .nan = .nan ∧
    ((rowIndex name (.num a) (.num b)).isNa = true ↔
      (b = 0 ∧ (if is_monthly name then a * 12 else a) = 0)) ∧
    (b = 0 → 0 < (if is_monthly name then a * 12 else a) →
      rowIndex name (.num a) (.num b) = .inf ∧
      classify (rowIndex name (.num a) (.num b)) = "Expensive") := by
  refine ⟨?_, ?_, ?_, ?_⟩
  · cases h : is_monthly name <;>
      simp [rowIndex, h, PVal.nan_div, PVal.nan_mul]
  · simp [rowIndex, PVal.div_nan, PVal.nan_mul]
  · rw [rowIndex_num]
    unfold index_of_annualQ
    generalize (if is_monthly name then a * 12 else a) = A
    by_cases hb : b = 0
    · subst hb
      rw [if_pos rfl]
      by_cases hA : A = 0
      · simp [hA, PVal.isNa]
      · rcases lt_or_gt_of_ne hA with h | h
        · simp [hA, not_lt.mpr (le_of_lt h), PVal.isNa]
        · simp [hA, h, PVal.isNa]
    · simp [hb, PVal.isNa]
  · intro hb hA
    rw [rowIndex_num]
    unfold index_of_annualQ
    rw [if_pos hb, if_neg (ne_of_gt hA), if_pos hA]
    exact ⟨rfl, rfl⟩

/-- Witness for C1 (amended) at the concrete input of the counterexample:
cost column "Annual_Rent", cost 1000, income 0. -/
theorem C1_amended_witness :
    rowIndex "Annual_Rent" (.num 1000) (.num 0) = .inf ∧
    classify (rowIndex "Annual_Rent" (.num 1000) (.num 0)) = "Expensive" :=
  (C1_amended "Annual_Rent" 1000 0 .nan).2.2.2 rfl (by decide)

/-- C6: the per-row cost is multiplied by 12 before the index is computed
exactly when the resolved cost column's name contains "month"
case-insensitively, and is used as-is otherwise; a cost column named
`Avg_Rent_Monthly_INR` with value 20000 and an income value 600000 yields
index 40.0 and class "Moderate". -/
theorem C6_monthly_annualization :
    (∀ (name : String) (r i : ℚ),
      rowIndex name (.num r) (.num i) =
        index_of_annualQ (if strContains (pyLower name) "month" then r * 12 else r) i) ∧
    compute_affordability "Avg_Rent_Monthly_INR" [.num 20000] (some [.num 600000]) none
      = ([.num 40], ["Moderate"]) := by
  refine ⟨fun name r i => rowIndex_num name r i, ?_⟩
  have hm : is_monthly "Avg_Rent_Monthly_INR" = true := rfl
  norm_num [compute_affordability, hm, classify, PVal.mul, PVal.div, PVal.isNa, PVal.lt,
    PVal.le]

lemma truthy_and_lt (m : PVal) :
    (truthy m && PVal.lt (.num 1000000) m) = PVal.lt (.num 1000000) m := by
  cases m with
  | num q =>
    by_cases hq : q = 0
    · subst hq
      norm_num [truthy, PVal.lt]
    · simp [truthy, PVal.lt, hq]
  | nan => rfl
  | inf => rfl
  | neginf => rfl

/-- The monthly-rent estimate of the claim C7, per cost cell `c` of a column
`cells` named `rent_col`: `c / 300` when the column is not monthly-labeled
and its maximum exceeds 1,000,000, `c` itself when monthly-labeled, `c / 12`
otherwise. -/
def spec_monthly_est (rent_col : String) (cells : List PVal) (c : PVal) : PVal :=
  if !is_monthly rent_col && PVal.lt (.num 1000000) (series_max cells) then c.div (.num 300)
  else if is_monthly rent_col then c
  else c.div (.num 12)

/-- C7: with `incomeCol = none`, `compute_affordability` synthesizes per-row
annual income as (monthly rent estimate × 12) × 3.5, where the estimate is
the cost divided by 300 when the cost column is not monthly-labeled and its
maximum exceeds 1,000,000, the cost itself when monthly-labeled, and the
cost divided by 12 otherwise; the synthetic column is then used as the
income column. -/
theorem C7_synthetic_income :
    (∀ (rent_col : String) (cells : List PVal),
      estimated_income rent_col cells =
        cells.map (fun c =>
          ((spec_monthly_est rent_col cells c).mul (.num 12)).mul (.num (7/2)))) ∧
    (∀ (rent_col : String) (cells : List PVal) (pre : Option (List PVal)),
      compute_affordability rent_col cells none pre =
        compute_affordability rent_col cells (some (estimated_income rent_col cells)) pre) := by
  constructor
  · intro rent_col cells
    cases hm : is_monthly rent_col with
    | true =>
      simp [estimated_income, spec_monthly_est, hm, List.map_map, Function.comp]
    | false =>
      cases hlt : PVal.lt (.num 1000000) (series_max cells) with
      | true =>
        have htr : truthy (series_max cells) = true := by
          have h2 := truthy_and_lt (series_max cells)
          rw [hlt, Bool.and_true] at h2
          exact h2
        simp [estimated_income, spec_monthly_est, hm, hlt, htr, List.map_map, Function.comp]
      | false =>
        simp [estimated_income, spec_monthly_est, hm, hlt, List.map_map, Function.comp]
  · intro rent_col cells pre
    rfl

/-- The struggling test of the claims: the row's index is non-missing and
strictly greater than the threshold (an infinite index is greater than any
threshold, a missing one is never struggling). -/
def spec_gt (idx : PVal) (th : ℚ) : Bool :=
  match idx with
  | .num q => decide (th < q)
  | .inf => true
  | .nan => false
  | .neginf => false

lemma spec_gt_eq (v : PVal) (th : ℚ) : spec_gt v th = PVal.lt (.num th) v := by
  cases v <;> rfl

/-- C8: `estimate_struggling` returns overallCount = the number of rows with
index strictly greater than the threshold, and overallFraction =
overallCount divided by the number of rows with a non-missing index, or 0
when that denominator is zero; on index values [10, 60, 55, 20, missing]
with threshold 50 it returns overallCount 2 and overallFraction 1/2. -/
theorem C8_overall_struggling :
    (∀ (rows : List SRow) (th : ℚ),
      (estimate_struggling rows th).1 =
        (rows.filter (fun r => spec_gt r.idx th)).length ∧
      (estimate_struggling rows th).2.1 =
        (if (rows.filter (fun r => !r.idx.isNa)).length = 0 then (0 : ℚ)
         else ((rows.filter (fun r => spec_gt r.idx th)).length : ℚ) /
           ((rows.filter (fun r => !r.idx.isNa)).length : ℚ))) ∧
    (estimate_struggling [⟨some "A", .num 10⟩, ⟨some "A", .num 60⟩, ⟨some "B", .num 55⟩,
        ⟨some "B", .num 20⟩, ⟨some "B", .nan⟩] 50).1 = 2 ∧
    (estimate_struggling [⟨some "A", .num 10⟩, ⟨some "A", .num 60⟩, ⟨some "B", .num 55⟩,
        ⟨some "B", .num 20⟩, ⟨some "B", .nan⟩] 50).2.1 = 1/2 := by
  refine ⟨fun rows th => ⟨?_, ?_⟩, ?_, ?_⟩
  · simp only [estimate_struggling]
    rw [List.filter_map]
    simp [spec_gt_eq, Function.comp_def]
  · simp only [estimate_struggling]
    rw [List.filter_map, List.filter_map]
    simp [spec_gt_eq, Function.comp_def]
  · norm_num [estimate_struggling, PVal.lt, PVal.isNa]
  · norm_num [estimate_struggling, PVal.lt, PVal.isNa]

/-- C10: in the per-area output of `estimate_struggling`, each area's `total`
counts every row of that area, including rows whose index is missing (such a
row is never counted as struggling), so the per-area fraction's denominator
is all rows of the area — unlike the overall fraction, whose denominator is
only the rows with a non-missing index.  The concrete rows
[(A, 60), (A, missing)] exhibit the difference: per-area fraction 1/2,
overall fraction 1. -/
theorem C10_per_area_totals :
    (∀ (rows : List SRow) (th : ℚ),
      (estimate_struggling rows th).2.2 =
        (sortStr (dedupStr (rows.filterMap (fun r => r.area)))).map (fun a =>
          (a,
           (rows.filter (fun r => spec_gt r.idx th && decide (r.area = some a))).length,
           (rows.filter (fun r => r.area = some a)).length,
           if (rows.filter (fun r => r.area = some a)).length = 0 then (0 : ℚ)
           else ((rows.filter (fun r => spec_gt r.idx th && decide (r.area = some a))).length : ℚ) /
             ((rows.filter (fun r => r.area = some a)).length : ℚ)))) ∧
    (estimate_struggling [⟨some "A", .num 60⟩, ⟨some "A", .nan⟩] 50).2.2
      = [("A", 1, 2, 1/2)] ∧
    (estimate_struggling [⟨some "A", .num 60⟩, ⟨some "A", .nan⟩] 50).2.1 = 1 := by
  refine ⟨fun rows th => ?_, ?_, ?_⟩
  · simp only [estimate_struggling]
    refine List.map_congr_left ?_
    intro a _
    simp [spec_gt_eq]
  · norm_num [estimate_struggling, dedupStr, sortStr, insertStr, PVal.lt, PVal.isNa]
  · norm_num [estimate_struggling, PVal.lt, PVal.isNa]

lemma length_insertQ (x : ℚ) (l : List ℚ) : (insertQ x l).length = l.length + 1 := by
  induction l with
  | nil => rfl
  | cons y ys ih =>
    unfold insertQ
    split
    · rfl
    · simp [ih]

lemma length_sortQ (l : List ℚ) : (sortQ l).length = l.length := by
  induction l with
  | nil => rfl
  | cons x xs ih =>
    simp only [sortQ, List.foldr] at ih ⊢
    rw [length_insertQ, ih]
    rfl

lemma median_isSome (xs : List ℚ) (h : xs ≠ []) : ∃ m, median xs = some m := by
  cases hs : sortQ xs with
  | nil =>
    exfalso
    have hlen := length_sortQ xs
    rw [hs] at hlen
    exact h (List.length_eq_zero.mp hlen.symm)
  | cons y ys =>
    simp only [median, hs]
    split <;> exact ⟨_, rfl⟩

lemma modeStr_isSome (xs : List String) (h : xs ≠ []) : ∃ m, modeStr xs = some m := by
  cases xs with
  | nil => exact absurd rfl h
  | cons x rest => exact ⟨_, rfl⟩

lemma filterMap_id_ne_nil {α : Type} (cells : List (Option α))
    (h : cells.any (fun c => c.isSome) = true) : cells.filterMap id ≠ [] := by
  intro hc
  rw [List.filterMap_eq_nil_iff] at hc
  rw [List.any_eq_true] at h
  obtain ⟨c, hmem, hs⟩ := h
  have hnone : c = none := hc c hmem
  rw [hnone] at hs
  simp at hs

lemma fillNumCol_noMissing (cells : List (Option ℚ))
    (h : cells.any (fun c => c.isNone) = false ∨ cells.any (fun c => c.isSome) = true) :
    (fillNumCol cells).any (fun c => c.isNone) = false := by
  unfold fillNumCol
  by_cases hm : cells.any (fun c => c.isNone) = true
  · rw [if_pos hm]
    rcases h with h | h
    · simp [h] at hm
    · obtain ⟨m, hmed⟩ := median_isSome _ (filterMap_id_ne_nil cells h)
      rw [hmed]
      simp
  · rw [if_neg hm]
    simp only [Bool.not_eq_true] at hm
    exact hm

lemma fillStrCol_ok (cells : List (Option String))
    (h : cells.any (fun c => c.isNone) = false ∨ cells.any (fun c => c.isSome) = true) :
    ∃ filled, fillStrCol cells = .ok filled ∧ filled.any (fun c => c.isNone) = false := by
  unfold fillStrCol
  by_cases hm : cells.any (fun c => c.isNone) = true
  · rw [if_pos hm]
    rcases h with h | h
    · simp [h] at hm
    · obtain ⟨m, hmode⟩ := modeStr_isSome _ (by
        intro hnil
        exact filterMap_id_ne_nil cells h hnil)
      rw [hmode]
      exact ⟨_, rfl, by simp⟩
  · rw [if_neg hm]
    simp only [Bool.not_eq_true] at hm
    exact ⟨cells, rfl, hm⟩

lemma coerceColumn_noMissing (n : ℕ) (cells : List (Option String))
    (h : cells.any (fun c => c.isNone) = false) :
    (coerceColumn n cells).hasMissing = false := by
  simp only [coerceColumn]
  by_cases hcond : 0 < ((parsedCells cells).filterMap id).length ∧
      3 * n / 5 ≤ ((parsedCells cells).filterMap id).length
  · rw [if_pos hcond]
    obtain ⟨m, hmed⟩ := median_isSome ((parsedCells cells).filterMap id)
      (List.ne_nil_of_length_pos hcond.1)
    rw [hmed]
    simp [Column.hasMissing]
  · rw [if_neg hcond]
    simpa [Column.hasMissing] using h

lemma cleanColumn_ok (n : ℕ) (c : Column)
    (h : c.hasMissing = false ∨ c.hasPresent = true) :
    ∃ d, cleanColumn n c = .ok d ∧ d.hasMissing = false := by
  cases c with
  | numCol cells =>
    refine ⟨.numCol (fillNumCol cells), rfl, ?_⟩
    have hn := fillNumCol_noMissing cells
      (by simpa [Column.hasMissing, Column.hasPresent] using h)
    simpa [Column.hasMissing] using hn
  | strCol cells =>
    obtain ⟨filled, hf, hnm⟩ := fillStrCol_ok cells
      (by simpa [Column.hasMissing, Column.hasPresent] using h)
    refine ⟨coerceColumn n filled, ?_, coerceColumn_noMissing n filled hnm⟩
    simp [cleanColumn, hf]

lemma cleanCols_ok (n : ℕ) (cols : List (String × Column))
    (h : ∀ p ∈ cols, p.2.hasMissing = false ∨ p.2.hasPresent = true) :
    ∃ cs, cleanCols n cols = .ok cs ∧ cs.all (fun p => !p.2.hasMissing) = true := by
  induction cols with
  | nil => exact ⟨[], rfl, rfl⟩
  | cons p rest ih =>
    obtain ⟨d, hd, hdm⟩ := cleanColumn_ok n p.2 (h p (by simp))
    obtain ⟨cs, hcs, hcsall⟩ := ih (fun q hq => h q (by simp [hq]))
    refine ⟨(pyStrip p.1, d) :: cs, ?_, ?_⟩
    · simp [cleanCols, hd, hcs]
    · simp [hdm, hcsall]

/-- C2 (counterexample): `clean_data` does not return a missing-free table for
every input — a numeric column whose values are all missing has a missing
median, so `fillna` leaves every cell missing. -/
theorem C2_counterexample :
    clean_data ⟨1, [("x", Column.numCol [none])]⟩
      = .ok ⟨1, [("x", Column.numCol [none])]⟩ ∧
    Table.noMissingB ⟨1, [("x", Column.numCol [none])]⟩ = false :=
  ⟨rfl, rfl⟩

/-- C2 (amended): for every table in which each column that has a missing
value also has at least one present value, `clean_data` succeeds (raising
nothing) and returns a table with no missing values — numeric columns are
imputed with their median, non-numeric ones with their mode.  (An all-missing
numeric column stays missing, and an all-missing non-numeric column makes
`mode().iloc[0]` raise.) -/
theorem C2_amended (t : Table)
    (h : ∀ p ∈ t.cols, p.2.hasMissing = false ∨ p.2.hasPresent = true) :
    ∃ u, clean_data t = .ok u ∧ u.noMissingB = true := by
  obtain ⟨cs, hcs, hall⟩ := cleanCols_ok t.nrows t.cols h
  exact ⟨⟨t.nrows, cs⟩, by simp [clean_data, hcs], by simpa [Table.noMissingB] using hall⟩

/-- Witness for C2 (amended): a two-column table with one missing numeric and
one missing text cell, each column having a present value. -/
theorem C2_amended_witness :
    ∃ u, clean_data ⟨2, [("a", Column.numCol [some 1, none]),
        ("b", Column.strCol [some "x", none])]⟩ = .ok u ∧ u.noMissingB = true :=
  C2_amended _ (by decide)

/-- C3 (counterexample): in a 7-row table, a text column with exactly 4
parseable cells — 4/7 ≈ 57% < 60% of the rows — is nonetheless replaced by
its numeric coercion (commas stripped, unparseable cells imputed with the
coerced median (2+3)/2 = 5/2), because the code's acceptance bound is
`int(0.6 * 7) = 4`, not the real 60% mark 4.2. -/
theorem C3_counterexample :
    cleanColumn 7 (Column.strCol [some "1", some "2", some "3", some "4,000",
        some "x", some "y", some "z"])
      = .ok (.numCol [some 1, some 2, some 3, some 4000,
          some (5/2), some (5/2), some (5/2)]) ∧
    (4 : ℚ) / 7 < 3 / 5 := by
  constructor
  · have hfill : fillStrCol [some "1", some "2", some "3", some "4,000",
        some "x", some "y", some "z"]
        = .ok [some "1", some "2", some "3", some "4,000",
            some "x", some "y", some "z"] := rfl
    have hparsed : parsedCells [some "1", some "2", some "3", some "4,000",
        some "x", some "y", some "z"]
        = [some 1, some 2, some 3, some 4000, none, none, none] := rfl
    have hfm : List.filterMap id [some (1 : ℚ), some 2, some 3, some 4000,
        none, none, none] = [1, 2, 3, 4000] := rfl
    have hmed : median [(1 : ℚ), 2, 3, 4000] = some (5/2) := by
      norm_num [median, sortQ, insertQ]
    simp only [cleanColumn, hfill, coerceColumn, hparsed, hfm, hmed]
    norm_num
  · norm_num

/-- C3 (amended): `clean_data` replaces a non-numeric column by its numeric
coercion (commas stripped, unparseable cells imputed with the coerced
median) iff at least one cell parses and the parsed count is at least
`int(0.6 * n) = ⌊3n/5⌋` — a bound that, `n` not being a multiple of 5,
admits columns with strictly less than 60% of the rows parsing; otherwise
the column is left as text. -/
theorem C3_amended (n : ℕ) (cells : List (Option String)) (textCells : List String) :
    ((∃ vals, coerceColumn n cells = .numCol vals) ↔
      (0 < ((parsedCells cells).filterMap id).length ∧
        3 * n / 5 ≤ ((parsedCells cells).filterMap id).length)) ∧
    (coerceColumn n cells = .strCol cells ∨
      ∃ m, median ((parsedCells cells).filterMap id) = some m ∧
        coerceColumn n cells = .numCol ((parsedCells cells).map (fun c => some (c.getD m)))) ∧
    cleanColumn n (.strCol (textCells.map some)) = .ok (coerceColumn n (textCells.map some)) := by
  refine ⟨?_, ?_, ?_⟩
  · simp only [coerceColumn]
    by_cases hcond : 0 < ((parsedCells cells).filterMap id).length ∧
        3 * n / 5 ≤ ((parsedCells cells).filterMap id).length
    · rw [if_pos hcond]
      obtain ⟨m, hmed⟩ := median_isSome ((parsedCells cells).filterMap id)
        (List.ne_nil_of_length_pos hcond.1)
      rw [hmed]
      simp [hcond]
    · rw [if_neg hcond]
      simp [hcond]
  · simp only [coerceColumn]
    by_cases hcond : 0 < ((parsedCells cells).filterMap id).length ∧
        3 * n / 5 ≤ ((parsedCells cells).filterMap id).length
    · rw [if_pos hcond]
      obtain ⟨m, hmed⟩ := median_isSome ((parsedCells cells).filterMap id)
        (List.ne_nil_of_length_pos hcond.1)
      rw [hmed]
      exact Or.inr ⟨m, rfl, rfl⟩
    · rw [if_neg hcond]
      exact Or.inl rfl
  · have hfill : fillStrCol (textCells.map some) = .ok (textCells.map some) := by
      unfold fillStrCol
      rw [if_neg]
      simp [List.any_map, Function.comp_def]
    simp [cleanColumn, hfill]

/-- The rows `recommend_actions` formats: the valid rows sorted by index
descending, truncated to `top_k`. -/
def rec_taken (rows : List SRow) (top_k : ℕ) : List SRow :=
  (sort_desc (valid_rows rows)).take top_k

/-- Strictly descending chain of index values (the order the original claim
C9 asserts). -/
def strictDescB : List PVal → Bool
  | [] => true
  | [_] => true
  | a :: b :: rest => PVal.lt b a && strictDescB (b :: rest)

/-- Non-increasing chain of index values. -/
def nonIncB : List PVal → Bool
  | [] => true
  | [_] => true
  | a :: b :: rest => PVal.le b a && nonIncB (b :: rest)

/-- `insertDesc` on the bare index values. -/
def insertPV (x : PVal) : List PVal → List PVal
  | [] => [x]
  | y :: ys => if PVal.le y x then x :: y :: ys else y :: insertPV x ys

/-- `sort_desc` on the bare index values. -/
def sortPV (l : List PVal) : List PVal := l.foldr insertPV []

lemma map_idx_insertDesc (r : SRow) (l : List SRow) :
    (insertDesc r l).map (fun s => s.idx) = insertPV r.idx (l.map (fun s => s.idx)) := by
  induction l with
  | nil => rfl
  | cons y ys ih =>
    simp only [insertDesc, insertPV, List.map_cons]
    by_cases h : PVal.le y.idx r.idx = true
    · simp [h]
    · simp [h, ih]

lemma map_idx_sort_desc (l : List SRow) :
    (sort_desc l).map (fun s => s.idx) = sortPV (l.map (fun s => s.idx)) := by
  induction l with
  | nil => rfl
  | cons r rest ih =>
    show (insertDesc r (sort_desc rest)).map (fun s => s.idx)
      = insertPV r.idx (sortPV (rest.map (fun s => s.idx)))
    rw [map_idx_insertDesc, ih]

lemma pval_le_flip (a b : PVal) (ha : a.isNa = false) (hb : b.isNa = false)
    (h : PVal.le a b = false) : PVal.le b a = true := by
  cases a <;> cases b <;> simp_all [PVal.le, PVal.isNa]
  exact h.le

lemma nonIncB_insertPV (x : PVal) (l : List PVal) (hx : x.isNa = false)
    (hl : ∀ v ∈ l, v.isNa = false) (h : nonIncB l = true) :
    nonIncB (insertPV x l) = true := by
  induction l with
  | nil => rfl
  | cons y ys ih =>
    simp only [insertPV]
    by_cases hle : PVal.le y x = true
    · rw [if_pos hle]
      simp [nonIncB, hle, h]
    · rw [if_neg hle]
      have hxy : PVal.le x y = true :=
        pval_le_flip y x (hl y (by simp)) hx (by simp at hle; exact hle)
      cases ys with
      | nil => simp [insertPV, nonIncB, hxy]
      | cons z zs =>
        have hchain : PVal.le z y = true ∧ nonIncB (z :: zs) = true := by
          simpa [nonIncB] using h
        have ihz : nonIncB (insertPV x (z :: zs)) = true :=
          ih (fun v hv => hl v (by simp [List.mem_cons] at hv ⊢; tauto)) hchain.2
        simp only [insertPV] at ihz ⊢
        by_cases hz : PVal.le z x = true
        · rw [if_pos hz] at ihz ⊢
          simp [nonIncB, hxy, hz, hchain.2]
        · rw [if_neg hz] at ihz ⊢
          simp [nonIncB, hchain.1]
          simpa [nonIncB] using ihz

lemma mem_insertPV {v x : PVal} {l : List PVal} (h : v ∈ insertPV x l) :
    v = x ∨ v ∈ l := by
  induction l with
  | nil =>
    simp [insertPV] at h
    simp [h]
  | cons y ys ih =>
    simp only [insertPV] at h
    by_cases hle : PVal.le y x = true
    · rw [if_pos hle] at h
      simp [List.mem_cons] at h ⊢
      tauto
    · rw [if_neg hle] at h
      rcases List.mem_cons.mp h with h | h
      · simp [h]
      · rcases ih h with h | h
        · exact Or.inl h
        · simp [h]

lemma mem_sortPV {v : PVal} {l : List PVal} (h : v ∈ sortPV l) : v ∈ l := by
  induction l with
  | nil => simp [sortPV] at h
  | cons x xs ih =>
    have h2 : v ∈ insertPV x (sortPV xs) := h
    rcases mem_insertPV h2 with h3 | h3
    · simp [h3]
    · simp [ih h3]

lemma nonIncB_sortPV (l : List PVal) (hl : ∀ v ∈ l, v.isNa = false) :
    nonIncB (sortPV l) = true := by
  induction l with
  | nil => rfl
  | cons x xs ih =>
    show nonIncB (insertPV x (sortPV xs)) = true
    refine nonIncB_insertPV x (sortPV xs) (hl x (by simp)) ?_
      (ih (fun v hv => hl v (by simp [hv])))
    intro v hv
    exact hl v (by simp [mem_sortPV hv])

lemma nonIncB_take (k : ℕ) (l : List PVal) (h : nonIncB l = true) :
    nonIncB (l.take k) = true := by
  induction l generalizing k with
  | nil => rw [List.take_nil]; rfl
  | cons a rest ih =>
    cases k with
    | zero => rfl
    | succ j =>
      cases rest with
      | nil =>
        have htake : List.take (j + 1) [a] = [a] := by cases j <;> rfl
        rw [htake]
        rfl
      | cons b rs =>
        have h1 : PVal.le b a = true := by
          have := h
          simp [nonIncB] at this
          exact this.1
        have h2 : nonIncB (b :: rs) = true := by
          have := h
          simp [nonIncB] at this
          exact this.2
        cases j with
        | zero => rfl
        | succ i =>
          have hih := ih h2 (k := i + 1)
          show nonIncB (a :: b :: List.take i rs) = true
          simp only [nonIncB, h1, Bool.true_and]
          exact hih

lemma length_insertDesc (r : SRow) (l : List SRow) :
    (insertDesc r l).length = l.length + 1 := by
  induction l with
  | nil => rfl
  | cons y ys ih =>
    simp only [insertDesc]
    split
    · rfl
    · simp [ih]

lemma length_sort_desc (l : List SRow) : (sort_desc l).length = l.length := by
  induction l with
  | nil => rfl
  | cons r rest ih =>
    show (insertDesc r (sort_desc rest)).length = rest.length + 1
    rw [length_insertDesc, ih]

lemma valid_rows_isNa (rows : List SRow) :
    ∀ r ∈ valid_rows rows, r.idx.isNa = false := by
  intro r hr
  unfold valid_rows at hr
  rw [List.mem_filter] at hr
  have h2 := hr.2
  simp at h2
  exact h2.2

/-- C9 (counterexample): with two valid rows tied at index 40 and topK = 3,
`recommend_actions` returns two recommendations whose underlying indexes
[40, 40] are not strictly descending, refuting the claim's "sorted strictly
descending by index". -/
theorem C9_counterexample :
    (recommend_actions [⟨some "A", .num 40⟩, ⟨some "B", .num 40⟩] 3).length = 2 ∧
    strictDescB ((rec_taken [⟨some "A", .num 40⟩, ⟨some "B", .num 40⟩] 3).map
      (fun r => r.idx)) = false :=
  ⟨rfl, rfl⟩

/-- C9 (amended): `recommend_actions` drops rows whose area or index is
missing; with zero valid rows it returns exactly the single fixed
insufficient-data message; otherwise it returns exactly
min(topK, number of valid rows) recommendation strings, each formatting its
row's area and index with the fixed remediation message, taken from the
rows sorted by index in non-increasing (not necessarily strictly
decreasing) order. -/
theorem C9_amended (rows : List SRow) (top_k : ℕ) :
    recommend_actions rows top_k =
      (if (valid_rows rows).isEmpty then
        ["Insufficient data to generate recommendations."]
       else (rec_taken rows top_k).map (fun r => format_rec (r.area.getD "") r.idx)) ∧
    (recommend_actions rows top_k).length =
      (if (valid_rows rows).isEmpty then 1 else min top_k (valid_rows rows).length) ∧
    nonIncB ((rec_taken rows top_k).map (fun r => r.idx)) = true := by
  refine ⟨rfl, ?_, ?_⟩
  · by_cases hemp : (valid_rows rows).isEmpty = true
    · simp [recommend_actions, hemp]
    · simp only [Bool.not_eq_true] at hemp
      simp [recommend_actions, hemp, length_sort_desc]
  · unfold rec_taken
    rw [List.map_take, map_idx_sort_desc]
    refine nonIncB_take top_k _ (nonIncB_sortPV _ ?_)
    intro v hv
    rw [List.mem_map] at hv
    obtain ⟨r, hr, hrv⟩ := hv
    rw [← hrv]
    exact valid_rows_isNa rows r hr

lemma any_mapG {α β : Type} (f : α → β) (l : List α) (p : β → Bool) :
    (l.map f).any p = l.any (p ∘ f) := by
  induction l with
  | nil => rfl
  | cons x xs ih => simp only [List.map_cons, List.any_cons, ih]; rfl

lemma colsDict_snoc (ns : List String) (nm : String) :
    colsDict (ns ++ [nm]) = insertOrUpdate (colsDict ns) (pyLower nm) nm := by
  unfold colsDict
  rw [List.foldl_append]
  rfl

lemma lcNames_snoc (ns : List String) (nm : String) :
    lcNamesInOrder (ns ++ [nm]) =
      if (lcNamesInOrder ns).any (fun s => s = pyLower nm) then lcNamesInOrder ns
      else lcNamesInOrder ns ++ [pyLower nm] := by
  unfold lcNamesInOrder
  rw [List.foldl_append]
  rfl

lemma lastSpellingD_snoc (ns : List String) (nm k : String) :
    lastSpellingD (ns ++ [nm]) k = if pyLower nm = k then nm else lastSpellingD ns k := by
  unfold lastSpellingD
  rw [List.reverse_append]
  simp only [List.reverse_singleton, List.singleton_append]
  by_cases h : pyLower nm = k
  · simp [List.find?, h]
  · simp [List.find?, h]

lemma colsDict_eq_map (ns : List String) :
    colsDict ns = (lcNamesInOrder ns).map (fun k => (k, lastSpellingD ns k)) := by
  induction ns using List.reverseRecOn with
  | nil => rfl
  | append_singleton ns nm ih =>
    rw [colsDict_snoc, lcNames_snoc, ih]
    unfold insertOrUpdate
    have hcond : ((lcNamesInOrder ns).map (fun k => (k, lastSpellingD ns k))).any
        (fun p => p.1 = pyLower nm) = (lcNamesInOrder ns).any (fun s => s = pyLower nm) := by
      rw [any_mapG]
      rfl
    by_cases hmem : (lcNamesInOrder ns).any (fun s => s = pyLower nm) = true
    · rw [if_pos (by rw [hcond]; exact hmem), if_pos hmem, List.map_map]
      refine List.map_congr_left ?_
      intro k hk
      simp only [Function.comp]
      by_cases hkeq : k = pyLower nm
      · rw [lastSpellingD_snoc]
        simp [hkeq]
      · have h2 : ¬(pyLower nm = k) := fun h => hkeq h.symm
        rw [lastSpellingD_snoc]
        simp [hkeq, h2]
    · rw [if_neg (by rw [hcond]; exact hmem), if_neg hmem, List.map_append]
      congr 1
      · refine List.map_congr_left ?_
        intro k hk
        have hkne : ¬(pyLower nm = k) := by
          intro he
          exact hmem (List.any_eq_true.mpr ⟨k, hk, by simp [he]⟩)
        rw [lastSpellingD_snoc, if_neg hkne]
      · simp [lastSpellingD_snoc]

lemma scanKey_eq (ns : List String) (key : String) :
    scanKey (colsDict ns) key = specScanKey ns key := by
  unfold scanKey specScanKey
  rw [colsDict_eq_map, List.find?_map, Option.map_map]
  rfl

lemma areaScan_eq (ns : List String) : areaScan (colsDict ns) = specAmendedScan ns := by
  unfold areaScan specAmendedScan
  have hfold : ∀ (keys : List String) (acc : Option String),
      keys.foldl (fun a key => a <|> scanKey (colsDict ns) key) acc
        = keys.foldl (fun a key => a <|> specScanKey ns key) acc := by
    intro keys
    induction keys with
    | nil => intro acc; rfl
    | cons k ks ih =>
      intro acc
      simp only [List.foldl]
      rw [scanKey_eq]
      exact ih _
  exact hfold areaKeys none

lemma mem_lcNames (ns : List String) : ∀ k, k ∈ lcNamesInOrder ns ↔ ∃ c ∈ ns, pyLower c = k := by
  induction ns using List.reverseRecOn with
  | nil => simp [lcNamesInOrder]
  | append_singleton ns nm ih =>
    intro k
    rw [lcNames_snoc]
    by_cases hmem : (lcNamesInOrder ns).any (fun s => s = pyLower nm) = true
    · rw [if_pos hmem, ih k]
      constructor
      · rintro ⟨c, hc, hck⟩
        exact ⟨c, by simp [hc], hck⟩
      · rintro ⟨c, hc, hck⟩
        rcases List.mem_append.mp hc with h | h
        · exact ⟨c, h, hck⟩
        · rw [List.mem_singleton] at h
          subst h
          have hlc : pyLower c ∈ lcNamesInOrder ns := by
            rw [List.any_eq_true] at hmem
            obtain ⟨s, hs, hseq⟩ := hmem
            simp at hseq
            rwa [hseq] at hs
          rw [← hck]
          exact (ih (pyLower c)).mp hlc
    · rw [if_neg hmem]
      rw [List.mem_append, List.mem_singleton, ih k]
      constructor
      · rintro (⟨c, hc, hck⟩ | he)
        · exact ⟨c, by simp [hc], hck⟩
        · exact ⟨nm, by simp, he.symm⟩
      · rintro ⟨c, hc, hck⟩
        rcases List.mem_append.mp hc with h | h
        · exact Or.inl ⟨c, h, hck⟩
        · rw [List.mem_singleton] at h
          subst h
          exact Or.inr hck.symm

lemma address_cond (ns : List String) :
    (colsDict ns).any (fun p => p.1 = "address") = ns.any (fun c => pyLower c = "address") := by
  rw [colsDict_eq_map, any_mapG]
  have h1 : ((lcNamesInOrder ns).any ((fun p : String × String => decide (p.1 = "address")) ∘
      (fun k => (k, lastSpellingD ns k))) = true)
      ↔ (ns.any (fun c => pyLower c = "address") = true) := by
    simp only [Function.comp, List.any_eq_true, decide_eq_true_eq]
    constructor
    · rintro ⟨k, hk, hke⟩
      obtain ⟨c, hc, hck⟩ := (mem_lcNames ns k).mp hk
      exact ⟨c, hc, by rw [hck, hke]⟩
    · rintro ⟨c, hc, hck⟩
      exact ⟨"address", (mem_lcNames ns "address").mpr ⟨c, hc, hck⟩, rfl⟩
  cases h2 : ns.any (fun c => pyLower c = "address") with
  | true => exact h1.mpr h2
  | false =>
    cases h3 : (lcNamesInOrder ns).any ((fun p : String × String => decide (p.1 = "address")) ∘
        (fun k => (k, lastSpellingD ns k))) with
    | true => rw [h2] at h1; exact absurd (h1.mp h3) (by simp)
    | false => rfl

/-- C5 (counterexample): with columns ["City", "CITY"] (two spellings with
the same lowercasing), `infer_columns` chooses "CITY" — the dict
`{c.lower(): c}` keeps the last spelling for a repeated lowercased name —
while the claim's "first column whose lowercased name contains the key"
is "City". -/
theorem C5_counterexample :
    infer_area ["City", "CITY"] = "CITY" ∧
    specClaimScan ["City", "CITY"] = some "City" ∧
    ("CITY" : String) ≠ "City" :=
  ⟨rfl, rfl, by decide⟩

/-- C5 (amended): `infer_columns` resolves the area column as follows.  If a
column lowercased-named "address" exists the area column is the derived
"Derived City" column, whose cells take the text before the first comma of
the last non-empty line of the address ("Unknown" when the cell is
non-text/blank or that text is blank, the whole trimmed line when it has no
comma).  Otherwise the distinct lowercased column names are scanned in
first-occurrence order against the keys neighborhood, ward, zone, district,
city, location, locality, area (in that priority order; for the key "area",
lowercased names starting with "avg. area" are skipped); the chosen column
is the last original spelling of the first matching lowercased name — not
necessarily the first matching column when several spellings share a
lowercasing.  If nothing matches (or the match is the empty name, which
Python's `or` treats as falsy), the table's first column is used. -/
theorem C5_amended :
    (∀ names : List String,
      infer_area names =
        (if names.any (fun c => pyLower c = "address") then "Derived City"
         else pyOr (specAmendedScan names) (names.headD ""))) ∧
    derive_city_cell (some "123 Main St\nSpringfield, IL 62704") = "Springfield" ∧
    derive_city_cell (some "Unit 4 Somewhere") = "Unit 4 Somewhere" ∧
    derive_city_cell (some "   ") = "Unknown" ∧
    derive_city_cell none = "Unknown" ∧
    infer_area ["Address", "City"] = "Derived City" ∧
    infer_area ["Avg. Area Income", "Area Name"] = "Area Name" ∧
    infer_area ["foo", "bar"] = "foo" := by
  refine ⟨?_, rfl, rfl, rfl, rfl, rfl, rfl, rfl⟩
  intro names
  simp only [infer_area]
  rw [address_cond, areaScan_eq]

end AffordableHousing
